import Mathlib

set_option maxRecDepth 100000

/-!
Shallow embedding of the coordinate-geometry core of the repository:
`spalloc_server/links.py` (the `Links` enumeration with its vector duality)
and `spinn_machine.py` (the `SpiNNakerTriadGeometry` class).

Python integers are modelled by `Int`, Python lists by `List`, operations
that can raise (`KeyError` on a dict lookup, `ValueError` from `min` of an
empty sequence, `IndexError` on list indexing) return `Option`.  The
`centre` construction parameter, a pair of Python floats that is only ever
instantiated at `(3.6, 3.4)`, is modelled by exact rationals `ℚ × ℚ`; for
the standard instantiation every comparison performed during construction
has the same outcome under IEEE doubles and under exact rationals.
-/

namespace Spalloc

/-- The `Links` IntEnum of `spalloc_server/links.py`: 6 link directions. -/
inductive Links where
  | east
  | north_east
  | north
  | west
  | south_west
  | south
  deriving DecidableEq, Repr, Fintype

/-- The integer value of each enum member (`east = 0` … `south = 5`). -/
def Links.toOrdinal : Links → Nat
  | .east => 0
  | .north_east => 1
  | .north => 2
  | .west => 3
  | .south_west => 4
  | .south => 5

/-- Python `Links(value)`: the enum member with that value, `none` when the
value is not one of 0..5 (Python raises `ValueError`). -/
def Links.ofOrdinal : Nat → Option Links
  | 0 => some .east
  | 1 => some .north_east
  | 2 => some .north
  | 3 => some .west
  | 4 => some .south_west
  | 5 => some .south
  | _ => none

/-- The component clamping performed at the start of `Links.from_vector`:
`if abs(x) > 1: x = -1 if x > 0 else 1`.  Note that a component of
magnitude greater than 1 is replaced by the *opposite* sign (wrap-around
on a toroidal machine), not by its own sign. -/
def clampComponent (c : Int) : Int :=
  if 1 < |c| then (if 0 < c then -1 else 1) else c

/-- The `_link_direction_lookup` dictionary of `_LinksHelper.get_lookups`,
as an association list: the six primary canonical vectors followed by the
two aliased diagonal entries added afterwards. -/
def linkDirectionLookup : List ((Int × Int) × Links) :=
  [((1, 0), .east),
   ((-1, 0), .west),
   ((0, 1), .north),
   ((0, -1), .south),
   ((1, 1), .north_east),
   ((-1, -1), .south_west),
   ((1, -1), .south_west),
   ((-1, 1), .north_east)]

/-- Python dict lookup over the association list; `none` models `KeyError`. -/
def lookupVec (k : Int × Int) : List ((Int × Int) × Links) → Option Links
  | [] => none
  | e :: rest => if e.1 = k then some e.2 else lookupVec k rest

/-- `Links.from_vector`: clamp both components, then look the clamped pair
up in `_link_direction_lookup`. -/
def Links.from_vector (vector : Int × Int) : Option Links :=
  lookupVec (clampComponent vector.1, clampComponent vector.2) linkDirectionLookup

/-- `Links.to_vector`: the `_direction_link_lookup` dictionary, built by
inverting the six primary entries (the aliased entries are added to the
forward table only after the inversion, so they never appear here). -/
def Links.to_vector : Links → Int × Int
  | .east => (1, 0)
  | .west => (-1, 0)
  | .north => (0, 1)
  | .south => (0, -1)
  | .north_east => (1, 1)
  | .south_west => (-1, -1)

/-- `Links.opposite`: `Links((self + 3) % 6)`. -/
def Links.opposite (d : Links) : Option Links :=
  Links.ofOrdinal ((d.toOrdinal + 3) % 6)

/-- Spec-side description of the clamping actually performed by
`from_vector`: a component greater than `+1` wraps to `-1`, a component
less than `-1` wraps to `+1`, and a component already in `{-1, 0, +1}` is
unchanged.  Stated independently of `clampComponent` so that the theorems
relate the code to this description. -/
def wrapSign (c : Int) : Int :=
  if 1 < c then -1 else if c < -1 then 1 else c

end Spalloc

namespace SpinnMachine

def SIZE_X_OF_ONE_BOARD : Int := 8

def SIZE_Y_OF_ONE_BOARD : Int := 8

/-- Python `min(gen, key=...)`: first element with the minimal key (later
elements replace the current best only when strictly smaller); `none` models
the `ValueError` raised on an empty sequence. -/
def minByFirst {α β : Type*} [LinearOrder β] (key : α → β) : List α → Option α
  | [] => none
  | a :: l => some (l.foldl (fun best c => if key c < key best then c else best) a)

/-- The first element of the list whose key is minimal over the whole list,
phrased directly as a search (used to state what `minByFirst` computes). -/
def firstMinBy {α β : Type*} [LinearOrder β] (key : α → β) (l : List α) : Option α :=
  l.find? (fun a => l.all (fun b => decide (key a ≤ key b)))

/-- `SpiNNakerTriadGeometry._hexagonal_metric_distance`:
`max(abs(dx), abs(dy), abs(dx - dy))`. -/
def hexagonal_metric_distance (x y x_centre y_centre : ℚ) : ℚ :=
  max |x - x_centre| (max |y - y_centre| |(x - x_centre) - (y - y_centre)|)

/-- The distance key used by `_locate_nearest_ethernet`: the hexagonal
metric distance from `(x, y)` to the candidate root translated by the
nominal board centre. -/
def rootKey (centre : ℚ × ℚ) (x y : Int) (p : Int × Int) : ℚ :=
  hexagonal_metric_distance (x : ℚ) (y : ℚ) ((p.1 : ℚ) + centre.1) ((p.2 : ℚ) + centre.2)

/-- `SpiNNakerTriadGeometry._locate_nearest_ethernet`: the first candidate
in `ethernet_chips` whose translated centre minimises the hexagonal metric
distance to `(x, y)`. -/
def locate_nearest_ethernet (x y : Int) (ethernet_chips : List (Int × Int))
    (centre : ℚ × ℚ) : Option (Int × Int) :=
  minByFirst (rootKey centre x y) ethernet_chips

/-- The `extended_ethernet_chips` list built in the constructor: every root
offset by each combination of `{-triad_width, 0, +triad_width}` (outer) and
`{-triad_height, 0, +triad_height}` (inner), in that enumeration order. -/
def extendedEthernetChips (triad_width triad_height : Int)
    (roots : List (Int × Int)) : List (Int × Int) :=
  roots.flatMap (fun r =>
    [-triad_width, 0, triad_width].flatMap (fun x1 =>
      [-triad_height, 0, triad_height].map (fun y1 => (r.1 + x1, r.2 + y1))))

/-- The state of a constructed `SpiNNakerTriadGeometry`. -/
structure SpiNNakerTriadGeometry where
  triad_width : Int
  triad_height : Int
  roots : List (Int × Int)
  ethernet_offset : List (List (Int × Int))
  deriving DecidableEq, Repr

/-- The offset stored for one cell `(x, y)` of the triad during
construction: `(x - vx, y - vy)` where `(vx, vy)` is the nearest extended
root; `none` models the `ValueError` from `min` of an empty sequence. -/
def cellOffset (ext : List (Int × Int)) (centre : ℚ × ℚ) (x y : Nat) :
    Option (Int × Int) :=
  (locate_nearest_ethernet (x : Int) (y : Int) ext centre).map
    (fun v => ((x : Int) - v.1, (y : Int) - v.2))

/-- Evaluate `f` over a list, propagating the first failure (as a Python
list comprehension propagates the first raised exception). -/
def mapOption {α β : Type*} (f : α → Option β) : List α → Option (List β)
  | [] => some []
  | a :: l => (f a).bind fun b => (mapOption f l).map (fun bs => b :: bs)

/-- `SpiNNakerTriadGeometry.__init__`: build the `triad_height` ×
`triad_width` table of offsets to nearest extended roots (row `y`, column
`x`).  `List.range n.toNat` models Python `range(n)` (empty for `n ≤ 0`). -/
def mkSpiNNakerTriadGeometry (triad_width triad_height : Int)
    (roots : List (Int × Int)) (centre : ℚ × ℚ) : Option SpiNNakerTriadGeometry :=
  (mapOption (fun y =>
      mapOption (fun x =>
          cellOffset (extendedEthernetChips triad_width triad_height roots) centre x y)
        (List.range triad_width.toNat))
    (List.range triad_height.toNat)).map
    (fun table => ⟨triad_width, triad_height, roots, table⟩)

/-- Python list indexing `l[i]`, including negative-index semantics;
`none` models `IndexError`. -/
def pyGet {α : Type*} (l : List α) (i : Int) : Option α :=
  if 0 ≤ i then l[i.toNat]?
  else if (-i).toNat ≤ l.length then l[(l.length - (-i).toNat)]? else none

/-- `SpiNNakerTriadGeometry.get_local_chip_coordinate`: reduce into the
tile with Python `%` (floor-mod, `Int.fmod`) and index the offset table. -/
def get_local_chip_coordinate (g : SpiNNakerTriadGeometry)
    (x y root_x root_y : Int) : Option (Int × Int) :=
  (pyGet g.ethernet_offset (Int.fmod (y - root_y) g.triad_height)).bind
    (fun row => pyGet row (Int.fmod (x - root_x) g.triad_width))

/-- `SpiNNakerTriadGeometry.get_ethernet_chip_coordinates`:
`((x - dx) % width, (y - dy) % height)`. -/
def get_ethernet_chip_coordinates (g : SpiNNakerTriadGeometry)
    (x y width height root_x root_y : Int) : Option (Int × Int) :=
  (get_local_chip_coordinate g x y root_x root_y).map
    (fun d => (Int.fmod (x - d.1) width, Int.fmod (y - d.2) height))

/-- Python `range(start, stop, step)` for a positive step, with an explicit
fuel argument bounding the number of iterations. -/
def pyRangeFuel (fuel : Nat) (start stop step : Int) : List Int :=
  match fuel with
  | 0 => []
  | f + 1 => if start < stop then start :: pyRangeFuel f (start + step) stop step else []

/-- Python `range(start, stop, step)` with `step > 0` (the only form this
code uses; the constructor strides are the positive triad dimensions). -/
def pyRange (start stop step : Int) : List Int :=
  if 0 < step then pyRangeFuel (stop - start).toNat start stop step else []

/-- `SpiNNakerTriadGeometry.get_potential_ethernet_chips`. -/
def get_potential_ethernet_chips (g : SpiNNakerTriadGeometry)
    (width height : Int) : List (Int × Int) :=
  let eth_width :=
    if Int.fmod width g.triad_width = 0 then width
    else width - SIZE_X_OF_ONE_BOARD + 1
  let eth_height :=
    if Int.fmod height g.triad_height = 0 then height
    else height - SIZE_Y_OF_ONE_BOARD + 1
  if eth_width ≤ 0 ∨ eth_height ≤ 0 then [(0, 0)]
  else
    g.roots.flatMap (fun r =>
      (pyRange r.2 eth_height g.triad_height).flatMap (fun y =>
        (pyRange r.1 eth_width g.triad_width).map (fun x => (x, y))))

/-- The enumeration bound as the spec describes it: the full lattice
extent when it is an exact multiple of the triad period, otherwise the
extent trimmed by `(one board size - 1)`.  Stated from the claim's words;
the code computes `bound - size + 1` in the second branch. -/
def trimmedBound (size bound period : Int) : Int :=
  if Int.fmod bound period = 0 then bound else bound - (size - 1)

/-- The roots of the standard SpiNN-5 triad geometry. -/
def spinn5Roots : List (Int × Int) := [(0, 0), (4, 8), (8, 4)]

/-- `SpiNNakerTriadGeometry.get_spinn5_geometry`: the standard geometry,
`SpiNNakerTriadGeometry(12, 12, [(0, 0), (4, 8), (8, 4)], (3.6, 3.4))`
(`3.6 = 18/5` and `3.4 = 17/5` exactly). -/
def get_spinn5_geometry : Option SpiNNakerTriadGeometry :=
  mkSpiNNakerTriadGeometry 12 12 spinn5Roots (mkRat 18 5, mkRat 17 5)

end SpinnMachine

namespace Spalloc

lemma clampComponent_cases (c : Int) :
    clampComponent c = -1 ∨ clampComponent c = 0 ∨ clampComponent c = 1 := by
  unfold clampComponent
  rw [Int.abs_eq_natAbs]
  split
  · split
    · exact Or.inl rfl
    · exact Or.inr (Or.inr rfl)
  · rename_i h
    omega

lemma clampComponent_eq_zero_iff (c : Int) : clampComponent c = 0 ↔ c = 0 := by
  unfold clampComponent
  rw [Int.abs_eq_natAbs]
  split
  · split <;> omega
  · rename_i h
    omega

lemma wrapSign_eq_clampComponent (c : Int) : wrapSign c = clampComponent c := by
  unfold wrapSign clampComponent
  rw [Int.abs_eq_natAbs]
  split <;> split <;> omega

lemma clampComponent_idem (c : Int) :
    clampComponent (clampComponent c) = clampComponent c := by
  obtain h | h | h := clampComponent_cases c <;> rw [h] <;> decide

end Spalloc

namespace Spalloc

lemma from_vector_eq (v : Int × Int) :
    Links.from_vector v =
      lookupVec (clampComponent v.1, clampComponent v.2) linkDirectionLookup := rfl

lemma from_vector_isSome (v : Int × Int) (hv : ¬(v.1 = 0 ∧ v.2 = 0)) :
    (Links.from_vector v).isSome = true := by
  rw [from_vector_eq]
  rcases clampComponent_cases v.1 with h1 | h1 | h1 <;>
    rcases clampComponent_cases v.2 with h2 | h2 | h2 <;>
    rw [h1, h2] <;>
    first
      | decide
      | exact absurd ⟨(clampComponent_eq_zero_iff v.1).mp h1,
          (clampComponent_eq_zero_iff v.2).mp h2⟩ hv

/-- Claim C1 (amended): for every integer 2D vector `v` with at least one
nonzero component, `from_vector(v)` clamps each component to `{-1, 0, +1}`,
but by *wrap-around* rather than by sign: a component greater than `+1`
maps to `-1`, a component less than `-1` maps to `+1`, and components
already in `{-1, 0, +1}` are unchanged; the function returns one of the 6
directions and satisfies `from_vector(v) = from_vector(wrap_clamp(v))`. -/
theorem claim_C1 (v : Int × Int) (hv : ¬(v.1 = 0 ∧ v.2 = 0)) :
    ∃ d : Links,
      Links.from_vector v = some d ∧
      Links.from_vector (wrapSign v.1, wrapSign v.2) = some d ∧
      wrapSign v.1 ∈ ([-1, 0, 1] : List Int) ∧
      wrapSign v.2 ∈ ([-1, 0, 1] : List Int) := by
  obtain ⟨d, hd⟩ := Option.isSome_iff_exists.mp (from_vector_isSome v hv)
  have hwrap : Links.from_vector (wrapSign v.1, wrapSign v.2) = Links.from_vector v := by
    rw [from_vector_eq, from_vector_eq]
    simp only [wrapSign_eq_clampComponent, clampComponent_idem]
  refine ⟨d, hd, by rw [hwrap, hd], ?_, ?_⟩
  · rw [wrapSign_eq_clampComponent]
    rcases clampComponent_cases v.1 with h | h | h <;> rw [h] <;> decide
  · rw [wrapSign_eq_clampComponent]
    rcases clampComponent_cases v.2 with h | h | h <;> rw [h] <;> decide

/-- Witness for claim C1 at the concrete input `v = (2, 0)`. -/
theorem claim_C1_witness :
    ¬((2 : Int) = 0 ∧ (0 : Int) = 0) ∧
    (∃ d : Links,
      Links.from_vector (2, 0) = some d ∧
      Links.from_vector (wrapSign 2, wrapSign 0) = some d ∧
      wrapSign 2 ∈ ([-1, 0, 1] : List Int) ∧
      wrapSign 0 ∈ ([-1, 0, 1] : List Int)) :=
  ⟨by decide, claim_C1 (2, 0) (by decide)⟩

/-- Claim C1 as stated is false at `v = (2, 0)`: the positive component 2
is clamped to `-1`, not `+1`, so the result is `west`, while
`sign((2, 0)) = (1, 0)` gives `east`; scale invariance fails. -/
theorem claim_C1_counterexample :
    Links.from_vector (2, 0) = some Links.west ∧
    Links.from_vector (1, 0) = some Links.east ∧
    (1 : Int) = Int.sign 2 ∧ (0 : Int) = Int.sign 0 ∧
    some Links.west ≠ some Links.east := by decide

/-- Claim C5: `from_vector` fails (the dict lookup raises `KeyError`)
exactly when the input vector is `(0, 0)`; every other integer vector is
mapped to a direction.  (The clamped form of `v` is `(0, 0)` iff `v` is
`(0, 0)`, since clamping maps zero to zero and nonzero to nonzero.) -/
theorem claim_C5 (v : Int × Int) : Links.from_vector v = none ↔ v = (0, 0) := by
  constructor
  · intro h
    rcases clampComponent_cases v.1 with h1 | h1 | h1 <;>
      rcases clampComponent_cases v.2 with h2 | h2 | h2 <;>
      rw [from_vector_eq, h1, h2] at h <;>
      first
        | exact absurd h (by decide)
        | exact Prod.ext ((clampComponent_eq_zero_iff v.1).mp h1)
            ((clampComponent_eq_zero_iff v.2).mp h2)
  · rintro rfl
    decide

/-- Claim C6 (amended): `to_vector(from_vector(v))` equals the *wrap*
clamped vector (components of magnitude > 1 map to the opposite sign),
not the sign vector, for every `v` with a nonzero component whose clamped
form is not one of the two aliased diagonals; for clamped form `(+1, -1)`
the result is `(-1, -1)` and for `(-1, +1)` it is `(+1, +1)`. -/
theorem claim_C6 (v : Int × Int) (hv : ¬(v.1 = 0 ∧ v.2 = 0)) :
    ((clampComponent v.1, clampComponent v.2) ≠ ((1 : Int), (-1 : Int)) →
     (clampComponent v.1, clampComponent v.2) ≠ ((-1 : Int), (1 : Int)) →
     (Links.from_vector v).map Links.to_vector =
       some (clampComponent v.1, clampComponent v.2)) ∧
    ((clampComponent v.1, clampComponent v.2) = ((1 : Int), (-1 : Int)) →
     (Links.from_vector v).map Links.to_vector = some (-1, -1)) ∧
    ((clampComponent v.1, clampComponent v.2) = ((-1 : Int), (1 : Int)) →
     (Links.from_vector v).map Links.to_vector = some (1, 1)) := by
  rcases clampComponent_cases v.1 with h1 | h1 | h1 <;>
    rcases clampComponent_cases v.2 with h2 | h2 | h2 <;>
    try (simp only [from_vector_eq, h1, h2]; decide)
  exact absurd ⟨(clampComponent_eq_zero_iff v.1).mp h1,
    (clampComponent_eq_zero_iff v.2).mp h2⟩ hv

/-- Witness for claim C6 at `v = (-7, 9)`, whose clamped form is the
aliased diagonal `(1, -1)`. -/
theorem claim_C6_witness :
    ¬((-7 : Int) = 0 ∧ (9 : Int) = 0) ∧
    (((clampComponent (-7), clampComponent 9) ≠ ((1 : Int), (-1 : Int)) →
      (clampComponent (-7), clampComponent 9) ≠ ((-1 : Int), (1 : Int)) →
      (Links.from_vector (-7, 9)).map Links.to_vector =
        some (clampComponent (-7), clampComponent 9)) ∧
     ((clampComponent (-7), clampComponent 9) = ((1 : Int), (-1 : Int)) →
      (Links.from_vector (-7, 9)).map Links.to_vector = some (-1, -1)) ∧
     ((clampComponent (-7), clampComponent 9) = ((-1 : Int), (1 : Int)) →
      (Links.from_vector (-7, 9)).map Links.to_vector = some (1, 1))) :=
  ⟨by decide, claim_C6 (-7, 9) (by decide)⟩

/-- Claim C6 as stated is false at `v = (2, 0)` (not an aliased diagonal):
the round trip gives `(-1, 0)`, not the sign vector `(1, 0)`. -/
theorem claim_C6_counterexample :
    (Links.from_vector (2, 0)).map Links.to_vector = some (-1, 0) ∧
    (Int.sign 2, Int.sign 0) = ((1 : Int), (0 : Int)) ∧
    ((2 : Int), (0 : Int)) ≠ (1, -1) ∧ ((2 : Int), (0 : Int)) ≠ (-1, 1) ∧
    some ((-1 : Int), (0 : Int)) ≠ some ((1 : Int), (0 : Int)) := by decide

/-- Claim C8: `opposite` always yields a valid direction, its ordinal is
`(d + 3) mod 6` under the encoding east=0 … south=5, it is an involution
with no fixed point, and it partitions the 6 directions into the 3 pairs
east/west, north-east/south-west, north/south. -/
theorem claim_C8 :
    (∀ d : Links, ∃ e, Links.opposite d = some e) ∧
    (∀ d e : Links, Links.opposite d = some e →
      e.toOrdinal = (d.toOrdinal + 3) % 6) ∧
    (∀ d e : Links, Links.opposite d = some e → Links.opposite e = some d) ∧
    (∀ d e : Links, Links.opposite d = some e → e ≠ d) ∧
    Links.opposite .east = some .west ∧
    Links.opposite .north_east = some .south_west ∧
    Links.opposite .north = some .south := by decide

/-- Claim C9: for every direction `d`, `from_vector(to_vector(d)) = d`;
the two aliased table entries never shadow a primary canonical vector. -/
theorem claim_C9 : ∀ d : Links, Links.from_vector (Links.to_vector d) = some d := by
  decide

end Spalloc

namespace SpinnMachine

lemma find?_cons_pos {α : Type*} (p : α → Bool) (a : α) (l : List α) (h : p a = true) :
    (a :: l).find? p = some a := List.find?_cons_of_pos l h

lemma find?_cons_neg {α : Type*} (p : α → Bool) (a : α) (l : List α) (h : p a = false) :
    (a :: l).find? p = l.find? p := List.find?_cons_of_neg l (by simp [h])

lemma firstMinBy_cons_eq_fold {α β : Type*} [LinearOrder β] (key : α → β) :
    ∀ (l : List α) (a : α),
      firstMinBy key (a :: l) =
        some (l.foldl (fun best c => if key c < key best then c else best) a) := by
  intro l
  induction l with
  | nil =>
      intro a
      simp [firstMinBy, List.find?_cons]
  | cons c l ih =>
      intro a
      by_cases hca : key c < key a
      · have hpq :
            (fun x => (a :: c :: l).all (fun b => decide (key x ≤ key b)))
              = (fun x => (c :: l).all (fun b => decide (key x ≤ key b))) := by
          funext x
          simp only [List.all_cons]
          rcases hcl : (decide (key x ≤ key c) && l.all fun b => decide (key x ≤ key b)) with _ | _
          · rw [Bool.and_false]
          · rw [Bool.and_true]
            have hxc : key x ≤ key c :=
              of_decide_eq_true ((Bool.and_eq_true _ _).mp hcl).1
            exact decide_eq_true (le_of_lt (lt_of_le_of_lt hxc hca))
        have hfold : (c :: l).foldl (fun best x => if key x < key best then x else best) a
            = l.foldl (fun best x => if key x < key best then x else best) c := by
          simp only [List.foldl_cons, if_pos hca]
        rw [hfold]
        unfold firstMinBy
        rw [hpq]
        rw [find?_cons_neg (fun x => (c :: l).all fun b => decide (key x ≤ key b)) a (c :: l)
          (by simp only [List.all_cons, Bool.and_eq_false_iff, decide_eq_false_iff_not]
              exact Or.inl (not_le.mpr hca))]
        exact ih c
      · have hac : key a ≤ key c := not_lt.mp hca
        have hpq :
            (fun x => (a :: c :: l).all (fun b => decide (key x ≤ key b)))
              = (fun x => (a :: l).all (fun b => decide (key x ≤ key b))) := by
          funext x
          simp only [List.all_cons]
          rcases hxa : decide (key x ≤ key a) with _ | _
          · rw [Bool.false_and, Bool.false_and]
          · rw [Bool.true_and, Bool.true_and]
            have : key x ≤ key c := le_trans (of_decide_eq_true hxa) hac
            rw [decide_eq_true this, Bool.true_and]
        have hfold : (c :: l).foldl (fun best x => if key x < key best then x else best) a
            = l.foldl (fun best x => if key x < key best then x else best) a := by
          simp only [List.foldl_cons, if_neg hca]
        rw [hfold]
        unfold firstMinBy
        rw [hpq]
        have hq := ih a
        unfold firstMinBy at hq
        by_cases hqa : ((a :: l).all fun b => decide (key a ≤ key b)) = true
        · rw [find?_cons_pos (fun x => (a :: l).all fun b => decide (key x ≤ key b)) a (c :: l) hqa]
          rw [find?_cons_pos (fun x => (a :: l).all fun b => decide (key x ≤ key b)) a l hqa] at hq
          exact hq
        · have hqa' : ((a :: l).all fun b => decide (key a ≤ key b)) = false :=
            Bool.eq_false_iff.mpr hqa
          have hqc : ((a :: l).all fun b => decide (key c ≤ key b)) = false := by
            rcases hc : ((a :: l).all fun b => decide (key c ≤ key b)) with _ | _
            · rfl
            · exfalso
              have hc' := List.all_eq_true.mp hc
              have hca' : key c ≤ key a :=
                of_decide_eq_true (hc' a (List.mem_cons_self a l))
              have hkeq : key a = key c := le_antisymm hac hca'
              apply hqa
              apply List.all_eq_true.mpr
              intro b hb
              exact decide_eq_true (le_trans (le_of_eq hkeq) (of_decide_eq_true (hc' b hb)))
          rw [find?_cons_neg (fun x => (a :: l).all fun b => decide (key x ≤ key b)) a (c :: l) hqa']
          rw [find?_cons_neg (fun x => (a :: l).all fun b => decide (key x ≤ key b)) c l hqc]
          rw [find?_cons_neg (fun x => (a :: l).all fun b => decide (key x ≤ key b)) a l hqa'] at hq
          exact hq

lemma minByFirst_eq_firstMinBy {α β : Type*} [LinearOrder β] (key : α → β)
    (l : List α) (hl : l ≠ []) : minByFirst key l = firstMinBy key l := by
  cases l with
  | nil => exact absurd rfl hl
  | cons a l => rw [firstMinBy_cons_eq_fold]; rfl

end SpinnMachine

namespace SpinnMachine

lemma mapOption_eq_some {α β : Type*} {f : α → Option β} :
    ∀ {l : List α} {l' : List β}, mapOption f l = some l' →
      l'.length = l.length ∧
      ∀ (i : Nat) (a : α), l[i]? = some a → ∃ b, l'[i]? = some b ∧ f a = some b := by
  intro l
  induction l with
  | nil =>
      intro l' h
      simp only [mapOption, Option.some.injEq] at h
      subst h
      exact ⟨rfl, fun i a hia => by simp at hia⟩
  | cons a l ih =>
      intro l' h
      simp only [mapOption] at h
      cases hfa : f a with
      | none => rw [hfa] at h; simp at h
      | some b =>
          rw [hfa] at h
          cases hml : mapOption f l with
          | none => rw [hml] at h; simp at h
          | some bs =>
              rw [hml] at h
              simp only [Option.some_bind, Option.map_some', Option.some.injEq] at h
              subst h
              obtain ⟨hlen, hidx⟩ := ih hml
              refine ⟨by simp [hlen], ?_⟩
              intro i a' hia
              cases i with
              | zero =>
                  simp only [List.getElem?_cons_zero, Option.some.injEq] at hia
                  subst hia
                  exact ⟨b, by simp, hfa⟩
              | succ i =>
                  simp only [List.getElem?_cons_succ] at hia ⊢
                  exact hidx i a' hia

lemma mapOption_const_some {α β : Type*} (c : β) (l : List α) :
    mapOption (fun _ => some c) l = some (l.map (fun _ => c)) := by
  induction l with
  | nil => rfl
  | cons a l ih => simp [mapOption, ih]

lemma mk_parts {tw th : Int} {roots : List (Int × Int)} {centre : ℚ × ℚ}
    {g : SpiNNakerTriadGeometry}
    (h : mkSpiNNakerTriadGeometry tw th roots centre = some g) :
    g.triad_width = tw ∧ g.triad_height = th ∧ g.roots = roots ∧
    g.ethernet_offset.length = th.toNat ∧
    ∀ (x y : Nat), x < tw.toNat → y < th.toNat →
      ∃ v, cellOffset (extendedEthernetChips tw th roots) centre x y = some v ∧
        (g.ethernet_offset[y]?).bind (fun row => row[x]?) = some v := by
  unfold mkSpiNNakerTriadGeometry at h
  cases htab : mapOption (fun y =>
      mapOption (fun x =>
          cellOffset (extendedEthernetChips tw th roots) centre x y)
        (List.range tw.toNat))
      (List.range th.toNat) with
  | none => rw [htab] at h; simp at h
  | some table =>
      rw [htab] at h
      simp only [Option.map_some', Option.some.injEq] at h
      subst h
      obtain ⟨hlen, hrow⟩ := mapOption_eq_some htab
      refine ⟨rfl, rfl, rfl, by simpa using hlen, ?_⟩
      intro x y hx hy
      obtain ⟨row, hry, hrf⟩ := hrow y y (by rw [List.getElem?_range hy])
      obtain ⟨hrlen, hcell⟩ := mapOption_eq_some hrf
      obtain ⟨v, hvx, hfv⟩ := hcell x x (by rw [List.getElem?_range hx])
      refine ⟨v, hfv, ?_⟩
      show ((⟨tw, th, roots, table⟩ : SpiNNakerTriadGeometry).ethernet_offset[y]?).bind
          (fun row => row[x]?) = some v
      rw [show (⟨tw, th, roots, table⟩ : SpiNNakerTriadGeometry).ethernet_offset = table from rfl,
        hry]
      simpa using hvx

end SpinnMachine

namespace SpinnMachine

lemma pyRangeFuel_mem (step : Int) (hstep : 0 < step) :
    ∀ (fuel : Nat) (start stop : Int), (stop - start).toNat ≤ fuel →
      ∀ a : Int, a ∈ pyRangeFuel fuel start stop step ↔
        ∃ i : Nat, a = start + step * i ∧ a < stop := by
  intro fuel
  induction fuel with
  | zero =>
      intro start stop hf a
      constructor
      · intro h
        simp [pyRangeFuel] at h
      · rintro ⟨i, rfl, hlt⟩
        exfalso
        have hnn : 0 ≤ step * (i : Int) := mul_nonneg hstep.le (Int.natCast_nonneg i)
        omega
  | succ f ih =>
      intro start stop hf a
      by_cases hss : start < stop
      · simp only [pyRangeFuel, if_pos hss]
        have hrec := ih (start + step) stop (by omega) a
        constructor
        · intro h
          rcases List.mem_cons.mp h with rfl | h2
          · exact ⟨0, by simp, hss⟩
          · obtain ⟨i, rfl, hlt⟩ := hrec.mp h2
            exact ⟨i + 1, by push_cast; ring, hlt⟩
        · rintro ⟨i, rfl, hlt⟩
          cases i with
          | zero => exact List.mem_cons.mpr (Or.inl (by simp))
          | succ k =>
              refine List.mem_cons.mpr (Or.inr (hrec.mpr ⟨k, by push_cast; ring, hlt⟩))
      · simp only [pyRangeFuel, if_neg hss]
        constructor
        · intro h
          simp at h
        · rintro ⟨i, rfl, hlt⟩
          exfalso
          have hnn : 0 ≤ step * (i : Int) := mul_nonneg hstep.le (Int.natCast_nonneg i)
          omega

lemma pyRange_mem (start stop step : Int) (hstep : 0 < step) (a : Int) :
    a ∈ pyRange start stop step ↔ ∃ i : Nat, a = start + step * i ∧ a < stop := by
  unfold pyRange
  rw [if_pos hstep]
  exact pyRangeFuel_mem step hstep _ start stop (le_refl _) a

lemma fmod_nonneg_of_pos (a b : Int) (hb : 0 < b) : 0 ≤ Int.fmod a b := by
  rw [Int.fmod_eq_emod]
  · exact Int.emod_nonneg a (by omega)
  · exact hb.le

lemma get_local_some {tw th : Int} {roots : List (Int × Int)} {centre : ℚ × ℚ}
    {g : SpiNNakerTriadGeometry}
    (h : mkSpiNNakerTriadGeometry tw th roots centre = some g)
    (htw : 0 < tw) (hth : 0 < th) (x y root_x root_y : Int) :
    ∃ v, get_local_chip_coordinate g x y root_x root_y = some v := by
  obtain ⟨hgw, hgh, hgr, hglen, hcell⟩ := mk_parts h
  have hdx0 : 0 ≤ Int.fmod (x - root_x) tw := fmod_nonneg_of_pos _ _ htw
  have hdxlt : Int.fmod (x - root_x) tw < tw := Int.fmod_lt_of_pos _ htw
  have hdy0 : 0 ≤ Int.fmod (y - root_y) th := fmod_nonneg_of_pos _ _ hth
  have hdylt : Int.fmod (y - root_y) th < th := Int.fmod_lt_of_pos _ hth
  have hxlt : (Int.fmod (x - root_x) tw).toNat < tw.toNat := by omega
  have hylt : (Int.fmod (y - root_y) th).toNat < th.toNat := by omega
  obtain ⟨v, hcv, hacc⟩ :=
    hcell (Int.fmod (x - root_x) tw).toNat (Int.fmod (y - root_y) th).toNat hxlt hylt
  refine ⟨v, ?_⟩
  cases hrow : g.ethernet_offset[(Int.fmod (y - root_y) th).toNat]? with
  | none => rw [hrow] at hacc; simp at hacc
  | some row =>
  rw [hrow] at hacc
  simp only [Option.some_bind] at hacc
  unfold get_local_chip_coordinate pyGet
  rw [hgw, hgh]
  rw [if_pos hdy0, hrow]
  simp only [Option.some_bind]
  rw [if_pos hdx0]
  exact hacc

end SpinnMachine

namespace SpinnMachine

/-- Claim C2 (amended): for every successfully constructed geometry and
every cell `(x, y)` of the triad, the stored offset is `(x - vx, y - vy)`
where `(vx, vy)` is the extended root minimising the hexagonal metric
distance from `(x, y)` to the root *translated by the `centre` parameter*
(the code measures the distance to `(x0 + cx, y0 + cy)`, not to the root
itself), ties broken by the first minimal candidate in the enumeration
order of the extended-root list. -/
theorem claim_C2 (tw th : Int) (roots : List (Int × Int)) (centre : ℚ × ℚ)
    (g : SpiNNakerTriadGeometry)
    (h : mkSpiNNakerTriadGeometry tw th roots centre = some g)
    (x y : Nat) (hx : x < tw.toNat) (hy : y < th.toNat) :
    ∃ r : Int × Int,
      firstMinBy (rootKey centre (x : Int) (y : Int))
        (extendedEthernetChips tw th roots) = some r ∧
      (g.ethernet_offset[y]?).bind (fun row => row[x]?) =
        some ((x : Int) - r.1, (y : Int) - r.2) := by
  obtain ⟨hgw, hgh, hgr, hglen, hcell⟩ := mk_parts h
  obtain ⟨v, hcv, hacc⟩ := hcell x y hx hy
  unfold cellOffset at hcv
  obtain ⟨r, hr, hv⟩ := Option.map_eq_some'.mp hcv
  have hne : extendedEthernetChips tw th roots ≠ [] := by
    intro he
    rw [he] at hr
    exact Option.noConfusion hr
  refine ⟨r, ?_, ?_⟩
  · rw [← minByFirst_eq_firstMinBy (rootKey centre (x : Int) (y : Int)) _ hne]
    exact hr
  · rw [hacc, ← hv]

/-- Claim C2 as stated (distance measured to the root itself, without the
centre translation) is false: in the geometry constructed with
`triad_width = triad_height = 2`, one root `(0, 0)` and the standard centre
`(3.6, 3.4)`, cell `(0, 0)` stores offset `(2, 2)` (its nearest root under
the code's centre-translated metric is `(-2, -2)`), while the first
extended root minimising the claimed metric is `(0, 0)`, which would give
offset `(0, 0)`. -/
theorem claim_C2_counterexample :
    mkSpiNNakerTriadGeometry 2 2 [(0, 0)] (mkRat 18 5, mkRat 17 5) =
      some ⟨2, 2, [(0, 0)], [[(2, 2), (3, 2)], [(2, 3), (3, 3)]]⟩ ∧
    ((([[(2, 2), (3, 2)], [(2, 3), (3, 3)]] : List (List (Int × Int)))[0]?).bind
        (fun row => row[0]?) = some (2, 2)) ∧
    firstMinBy (fun p : Int × Int => hexagonal_metric_distance 0 0 (p.1 : ℚ) (p.2 : ℚ))
      (extendedEthernetChips 2 2 [(0, 0)]) = some (0, 0) ∧
    ((2 : Int), (2 : Int)) ≠ ((0 : Int) - 0, (0 : Int) - 0) :=
  ⟨by with_unfolding_all decide, by decide, by with_unfolding_all decide, by decide⟩

/-- Witness for claim C2 on the concrete geometry with triad 2 × 2, one
root and the standard centre, at cell `(0, 0)`. -/
theorem claim_C2_witness :
    (mkSpiNNakerTriadGeometry 2 2 [(0, 0)] (mkRat 18 5, mkRat 17 5) =
      some ⟨2, 2, [(0, 0)], [[(2, 2), (3, 2)], [(2, 3), (3, 3)]]⟩) ∧
    (0 < (2 : Int).toNat) ∧
    ∃ r : Int × Int,
      firstMinBy (rootKey (mkRat 18 5, mkRat 17 5) 0 0)
        (extendedEthernetChips 2 2 [(0, 0)]) = some r ∧
      (((⟨2, 2, [(0, 0)], [[(2, 2), (3, 2)], [(2, 3), (3, 3)]]⟩ :
          SpiNNakerTriadGeometry).ethernet_offset[0]?).bind (fun row => row[0]?)) =
        some ((0 : Int) - r.1, (0 : Int) - r.2) :=
  ⟨by with_unfolding_all decide, by decide,
    claim_C2 2 2 [(0, 0)] (mkRat 18 5, mkRat 17 5) _
      (by with_unfolding_all decide) 0 0 (by decide) (by decide)⟩

/-- Claim C4 (amended): the constructor performs no parameter validation.
With a non-positive `triad_width` or `triad_height` it silently succeeds
and produces a degenerate (empty) offset table; with an empty root set and
positive dimensions construction does fail, but only with the generic
error from taking `min` of an empty sequence, not a configuration check. -/
theorem claim_C4 (tw th : Int) (roots : List (Int × Int)) (centre : ℚ × ℚ) :
    ((tw ≤ 0 ∨ th ≤ 0) → ∃ table, mkSpiNNakerTriadGeometry tw th roots centre =
        some ⟨tw, th, roots, table⟩) ∧
    (0 < tw → 0 < th → roots = [] →
      mkSpiNNakerTriadGeometry tw th roots centre = none) := by
  constructor
  · intro hle
    by_cases hth : th ≤ 0
    · refine ⟨[], ?_⟩
      unfold mkSpiNNakerTriadGeometry
      rw [Int.toNat_of_nonpos hth, List.range_zero]
      rfl
    · have htw : tw ≤ 0 := by
        rcases hle with h | h
        · exact h
        · exact absurd h hth
      refine ⟨(List.range th.toNat).map (fun _ => []), ?_⟩
      unfold mkSpiNNakerTriadGeometry
      rw [Int.toNat_of_nonpos htw, List.range_zero]
      rw [show (fun y => mapOption (fun x =>
          cellOffset (extendedEthernetChips tw th roots) centre x y) ([] : List Nat))
          = (fun _ : Nat => some ([] : List (Int × Int))) from rfl]
      rw [mapOption_const_some]
      rfl
  · intro htw hth hroots
    subst hroots
    have hext : extendedEthernetChips tw th [] = [] := rfl
    obtain ⟨m, hm⟩ : ∃ m, th.toNat = m + 1 := ⟨th.toNat - 1, by omega⟩
    obtain ⟨n, hn⟩ : ∃ n, tw.toNat = n + 1 := ⟨tw.toNat - 1, by omega⟩
    unfold mkSpiNNakerTriadGeometry
    rw [hm, hn, List.range_succ_eq_map, List.range_succ_eq_map]
    simp [mapOption, cellOffset, locate_nearest_ethernet, minByFirst, hext]

/-- Claim C4 as stated is false: constructing with `triad_width =
triad_height = 0` (non-positive) does not fail; it silently returns a
geometry with an empty offset table. -/
theorem claim_C4_counterexample :
    mkSpiNNakerTriadGeometry 0 0 [(0, 0)] (mkRat 18 5, mkRat 17 5) =
      some ⟨0, 0, [(0, 0)], []⟩ ∧ ¬(0 : Int) > 0 := ⟨rfl, by decide⟩

/-- Witness for claim C4: a non-positive-width construction that silently
succeeds, and an empty-roots construction that fails generically. -/
theorem claim_C4_witness :
    (∃ table, mkSpiNNakerTriadGeometry 0 5 [(0, 0)] (mkRat 18 5, mkRat 17 5) =
        some ⟨0, 5, [(0, 0)], table⟩) ∧
    mkSpiNNakerTriadGeometry 2 2 [] (mkRat 18 5, mkRat 17 5) = none :=
  ⟨(claim_C4 0 5 [(0, 0)] (mkRat 18 5, mkRat 17 5)).1 (Or.inl (by decide)),
    (claim_C4 2 2 [] (mkRat 18 5, mkRat 17 5)).2 (by decide) (by decide) rfl⟩

/-- Claim C7: for every successfully constructed geometry with positive
triad dimensions, all integer coordinates and roots, and positive lattice
bounds, `get_ethernet_chip_coordinates` returns a coordinate inside
`[0, width) × [0, height)` (toroidal wrap at the edges). -/
theorem claim_C7 (tw th : Int) (roots : List (Int × Int)) (centre : ℚ × ℚ)
    (g : SpiNNakerTriadGeometry)
    (h : mkSpiNNakerTriadGeometry tw th roots centre = some g)
    (htw : 0 < tw) (hth : 0 < th)
    (x y width height root_x root_y : Int) (hw : 0 < width) (hh : 0 < height) :
    ∃ ex ey, get_ethernet_chip_coordinates g x y width height root_x root_y =
        some (ex, ey) ∧ 0 ≤ ex ∧ ex < width ∧ 0 ≤ ey ∧ ey < height := by
  obtain ⟨v, hv⟩ := get_local_some h htw hth x y root_x root_y
  refine ⟨Int.fmod (x - v.1) width, Int.fmod (y - v.2) height, ?_, ?_, ?_, ?_, ?_⟩
  · unfold get_ethernet_chip_coordinates
    rw [hv]
    rfl
  · exact fmod_nonneg_of_pos _ _ hw
  · exact Int.fmod_lt_of_pos _ hw
  · exact fmod_nonneg_of_pos _ _ hh
  · exact Int.fmod_lt_of_pos _ hh

/-- Witness for claim C7 on the concrete 2 × 2 geometry at
`(x, y) = (5, -3)`, `width = height = 8`. -/
theorem claim_C7_witness :
    (mkSpiNNakerTriadGeometry 2 2 [(0, 0)] (mkRat 18 5, mkRat 17 5) =
      some ⟨2, 2, [(0, 0)], [[(2, 2), (3, 2)], [(2, 3), (3, 3)]]⟩) ∧
    (0 : Int) < 2 ∧ (0 : Int) < 8 ∧
    ∃ ex ey, get_ethernet_chip_coordinates
        ⟨2, 2, [(0, 0)], [[(2, 2), (3, 2)], [(2, 3), (3, 3)]]⟩ 5 (-3) 8 8 0 0 =
        some (ex, ey) ∧ 0 ≤ ex ∧ ex < 8 ∧ 0 ≤ ey ∧ ey < 8 :=
  ⟨by with_unfolding_all decide, by decide, by decide,
    claim_C7 2 2 [(0, 0)] (mkRat 18 5, mkRat 17 5) _ (by with_unfolding_all decide)
      (by decide) (by decide) 5 (-3) 8 8 0 0 (by decide) (by decide)⟩

/-- Claim C10: for every successfully constructed geometry with positive
triad dimensions, `get_local_chip_coordinate` is total for all integer
arguments: the floor-mod indices always lie in `[0, triad_width)` and
`[0, triad_height)`, so the offset-table lookup always succeeds (the
`IndexError` branch of the lookup is unreachable). -/
theorem claim_C10 (tw th : Int) (roots : List (Int × Int)) (centre : ℚ × ℚ)
    (g : SpiNNakerTriadGeometry)
    (h : mkSpiNNakerTriadGeometry tw th roots centre = some g)
    (htw : 0 < tw) (hth : 0 < th) (x y root_x root_y : Int) :
    0 ≤ Int.fmod (x - root_x) tw ∧ Int.fmod (x - root_x) tw < tw ∧
    0 ≤ Int.fmod (y - root_y) th ∧ Int.fmod (y - root_y) th < th ∧
    ∃ v, get_local_chip_coordinate g x y root_x root_y = some v :=
  ⟨fmod_nonneg_of_pos _ _ htw, Int.fmod_lt_of_pos _ htw,
    fmod_nonneg_of_pos _ _ hth, Int.fmod_lt_of_pos _ hth,
    get_local_some h htw hth x y root_x root_y⟩

/-- Witness for claim C10 on the concrete 2 × 2 geometry at
`(x, y) = (-7, 11)` with root `(1, 2)`. -/
theorem claim_C10_witness :
    (mkSpiNNakerTriadGeometry 2 2 [(0, 0)] (mkRat 18 5, mkRat 17 5) =
      some ⟨2, 2, [(0, 0)], [[(2, 2), (3, 2)], [(2, 3), (3, 3)]]⟩) ∧
    (0 : Int) < 2 ∧
    (0 ≤ Int.fmod ((-7) - 1) 2 ∧ Int.fmod ((-7) - 1) 2 < 2 ∧
     0 ≤ Int.fmod (11 - 2) 2 ∧ Int.fmod (11 - 2) 2 < 2 ∧
     ∃ v, get_local_chip_coordinate
        ⟨2, 2, [(0, 0)], [[(2, 2), (3, 2)], [(2, 3), (3, 3)]]⟩ (-7) 11 1 2 = some v) :=
  ⟨by with_unfolding_all decide, by decide,
    claim_C10 2 2 [(0, 0)] (mkRat 18 5, mkRat 17 5) _ (by with_unfolding_all decide)
      (by decide) (by decide) (-7) 11 1 2⟩

end SpinnMachine

namespace SpinnMachine

/-- Claim C3: `get_potential_ethernet_chips(width, height)` enumerates
exactly the root offsets tiled at `triad_width`/`triad_height` stride
within the bounds `eth_width × eth_height`, where each bound is the full
extent when it is an exact multiple of the triad period and otherwise the
extent minus `(one_board_size - 1)`; whenever a trimmed bound is ≤ 0 the
result is exactly `[(0, 0)]`; and with the standard triad parameters the
call for `(8, 8)` returns exactly `[(0, 0)]` and the call for `(24, 24)`
returns the 3 canonical roots tiled once per the periodic tiling rule. -/
theorem claim_C3 (g : SpiNNakerTriadGeometry) (htw : 0 < g.triad_width)
    (hth : 0 < g.triad_height) (width height : Int) :
    ((trimmedBound SIZE_X_OF_ONE_BOARD width g.triad_width ≤ 0 ∨
      trimmedBound SIZE_Y_OF_ONE_BOARD height g.triad_height ≤ 0) →
      get_potential_ethernet_chips g width height = [(0, 0)]) ∧
    (0 < trimmedBound SIZE_X_OF_ONE_BOARD width g.triad_width →
     0 < trimmedBound SIZE_Y_OF_ONE_BOARD height g.triad_height →
     ∀ p : Int × Int,
       p ∈ get_potential_ethernet_chips g width height ↔
         ∃ r ∈ g.roots, ∃ i j : Nat,
           p.1 = r.1 + g.triad_width * (i : Int) ∧
           p.2 = r.2 + g.triad_height * (j : Int) ∧
           p.1 < trimmedBound SIZE_X_OF_ONE_BOARD width g.triad_width ∧
           p.2 < trimmedBound SIZE_Y_OF_ONE_BOARD height g.triad_height) ∧
    (g.triad_width = 12 → g.triad_height = 12 → g.roots = spinn5Roots →
      get_potential_ethernet_chips g 8 8 = [(0, 0)] ∧
      get_potential_ethernet_chips g 24 24 =
        [(0, 0), (12, 0), (0, 12), (12, 12), (4, 8), (16, 8), (4, 20), (16, 20),
         (8, 4), (20, 4), (8, 16), (20, 16)]) := by
  have hewe : (if Int.fmod width g.triad_width = 0 then width
      else width - SIZE_X_OF_ONE_BOARD + 1) =
      trimmedBound SIZE_X_OF_ONE_BOARD width g.triad_width := by
    unfold trimmedBound
    split <;> ring
  have hehe : (if Int.fmod height g.triad_height = 0 then height
      else height - SIZE_Y_OF_ONE_BOARD + 1) =
      trimmedBound SIZE_Y_OF_ONE_BOARD height g.triad_height := by
    unfold trimmedBound
    split <;> ring
  refine ⟨?_, ?_, ?_⟩
  · intro hle
    simp only [get_potential_ethernet_chips]
    rw [hewe, hehe, if_pos hle]
  · intro hpw hph p
    simp only [get_potential_ethernet_chips]
    rw [hewe, hehe, if_neg (by omega)]
    simp only [List.mem_flatMap, List.mem_map]
    constructor
    · rintro ⟨r, hr, y0, hy0, x0, hx0, hp⟩
      obtain ⟨i, hxi, hxlt⟩ := (pyRange_mem r.1 _ _ htw x0).mp hx0
      obtain ⟨j, hyj, hylt⟩ := (pyRange_mem r.2 _ _ hth y0).mp hy0
      subst hp
      exact ⟨r, hr, i, j, hxi, hyj, hxlt, hylt⟩
    · rintro ⟨r, hr, i, j, h1, h2, h3, h4⟩
      exact ⟨r, hr, p.2, (pyRange_mem r.2 _ _ hth p.2).mpr ⟨j, h2, h4⟩,
        p.1, (pyRange_mem r.1 _ _ htw p.1).mpr ⟨i, h1, h3⟩, Prod.mk.eta⟩
  · intro h12w h12h hroots
    obtain ⟨gw, gh, gr, gtab⟩ := g
    simp only at h12w h12h hroots
    subst h12w
    subst h12h
    subst hroots
    constructor
    · rw [show get_potential_ethernet_chips ⟨12, 12, spinn5Roots, gtab⟩ 8 8 =
          get_potential_ethernet_chips ⟨12, 12, spinn5Roots, []⟩ 8 8 from rfl]
      decide
    · rw [show get_potential_ethernet_chips ⟨12, 12, spinn5Roots, gtab⟩ 24 24 =
          get_potential_ethernet_chips ⟨12, 12, spinn5Roots, []⟩ 24 24 from rfl]
      decide

/-- Witness for claim C3 with the standard triad parameters. -/
theorem claim_C3_witness :
    (0 : Int) < (⟨12, 12, spinn5Roots, []⟩ : SpiNNakerTriadGeometry).triad_width ∧
    (get_potential_ethernet_chips ⟨12, 12, spinn5Roots, []⟩ 8 8 = [(0, 0)] ∧
     get_potential_ethernet_chips ⟨12, 12, spinn5Roots, []⟩ 24 24 =
       [(0, 0), (12, 0), (0, 12), (12, 12), (4, 8), (16, 8), (4, 20), (16, 20),
        (8, 4), (20, 4), (8, 16), (20, 16)]) :=
  ⟨by decide,
    (claim_C3 ⟨12, 12, spinn5Roots, []⟩ (by decide) (by decide) 8 8).2.2 rfl rfl rfl⟩

end SpinnMachine
